import Mathlib

/-!
Verification of the task-service soft-delete lifecycle and ownership guard.

Shallow embedding of the storage layer (`repository/db/storage.go`,
`repository/inmemory/storage.go`) and the task HTTP handlers
(`internal/server/server.go`). Database tables and the in-memory Go map are
modelled as lists of rows; SQL statements are modelled by their effect on the
row list; the bounded delete-signal channel is modelled by its occupancy
count together with its capacity; transaction failure and purge failure are
modelled by explicit boolean oracles (a failed transaction is rolled back and
leaves the rows unchanged).
-/

namespace TaskService

/-- A row of the `tasks` table (and of the in-memory task map): identifier,
title, description, status, owning user identifier (`user_id`) and the
tombstoned flag (`deleted`). -/
structure Task where
  id : String
  title : String
  description : String
  status : String
  userID : String
  deleted : Bool
deriving DecidableEq, Repr

/-- The state of the task store: the rows of the `tasks` table, or the
entries of the in-memory map. -/
abbrev Rows := List Task

/-- Row lookup by identifier: `WHERE id = $1` in SQL, `s.tasks[id]` on the
Go map. -/
def findRow (rows : Rows) (id : String) : Option Task :=
  rows.find? (fun t => t.id == id)

/-- Identifiers are pairwise distinct: the primary-key constraint of the
`tasks` table, and key uniqueness of the Go map. -/
def uniqueIds (rows : Rows) : Prop := (rows.map Task.id).Nodup

instance (rows : Rows) : Decidable (uniqueIds rows) := by
  unfold uniqueIds; exact List.nodupDecidable _

/-- Typed storage-layer errors returned by the task operations
(`errors.ErrNotFound`, `errors.ErrConflict` in `domain/errors`). -/
inductive StoreErr
  | notFound
  | conflict
deriving DecidableEq, Repr

namespace Db

/-- `Storage.GetTaskByID`: `SELECT id, title, description, status, user_id,
deleted FROM tasks WHERE id = $1` — returns the row regardless of its
`deleted` state, or `ErrNotFound` when no row matches. -/
def getTaskByID (rows : Rows) (id : String) : Except StoreErr Task :=
  match findRow rows id with
  | some t => .ok t
  | none => .error .notFound

/-- `Storage.GetTasks`: `SELECT ... FROM tasks WHERE user_id = $1 AND
deleted = false` — the owner-scoped active listing. -/
def getTasks (rows : Rows) (userID : String) : List Task :=
  rows.filter (fun t => t.userID == userID && t.deleted == false)

/-- `Storage.CreateTask`: sets `task.ID` to a fresh UUID (`newId` here),
sets `task.Deleted = false`, then `INSERT INTO tasks ...`; an insert failure
(in particular a duplicate identifier) is surfaced as `ErrConflict` and
leaves the table unchanged. -/
def createTask (rows : Rows) (newId : String) (task : Task) :
    Except StoreErr (Rows × Task) :=
  let t := { task with id := newId, deleted := false }
  match findRow rows newId with
  | some _ => .error .conflict
  | none => .ok (rows ++ [t], t)

/-- `Storage.UpdateTask`: `UPDATE tasks SET title = $1, description = $2,
status = $3 WHERE id = $4`; `RowsAffected() == 0` is reported as
`ErrNotFound`. Only the three listed columns are written. -/
def updateTask (rows : Rows) (id : String) (task : Task) :
    Except StoreErr Rows :=
  if (findRow rows id).isSome then
    .ok (rows.map (fun t =>
      if t.id == id then
        { t with title := task.title, description := task.description,
                 status := task.status }
      else t))
  else .error .notFound

/-- The soft-delete UPDATE of `prepDeleteTask`: `UPDATE tasks SET
deleted = true WHERE id = $1 AND deleted = false`. -/
def softDeleteRows (rows : Rows) (id : String) : Rows :=
  rows.map (fun t =>
    if t.id == id && t.deleted == false then { t with deleted := true } else t)

/-- `RowsAffected()` of the soft-delete UPDATE: the number of rows matching
`id = $1 AND deleted = false`. -/
def softDeleteAffected (rows : Rows) (id : String) : Nat :=
  (rows.filter (fun t => t.id == id && t.deleted == false)).length

/-- Outcome of `hardDeleteAllFlagged`: the resulting rows and the affected
count (`none` when the transaction failed and was rolled back). -/
structure PurgeResult where
  rows : Rows
  affected : Option Nat
deriving DecidableEq, Repr

/-- `Storage.hardDeleteAllFlagged`: inside one transaction, `DELETE FROM
tasks WHERE deleted = true`, then commit; the returned count is
`RowsAffected()`. `txFails` models any failure of the transaction
(begin/exec/commit): the transaction is then rolled back or never committed,
so the rows are unchanged and an error is returned instead of a count. -/
def hardDeleteAllFlagged (rows : Rows) (txFails : Bool) : PurgeResult :=
  if txFails then { rows := rows, affected := none }
  else
    { rows := rows.filter (fun t => t.deleted == false),
      affected := some (rows.filter (fun t => t.deleted == true)).length }

/-- Outcome of `tryEnqueueOrFlush`: queue occupancy after the call, the
resulting rows, and whether the synchronous bulk purge ran. -/
structure TriggerResult where
  occupancy : Nat
  rows : Rows
  purgeRan : Bool
deriving DecidableEq, Repr

/-- `Storage.tryEnqueueOrFlush`: a non-blocking `select` first attempts to
send one unit signal on `deleteQueue` (capacity `cap`, current occupancy
`occ`); if the channel is full the `default` branch runs
`drainDeleteQueue` (emptying the queue) and then synchronously runs
`hardDeleteAllFlagged`, whose error is only logged. The function is total:
it never waits for queue space. -/
def tryEnqueueOrFlush (cap occ : Nat) (rows : Rows) (purgeFails : Bool) :
    TriggerResult :=
  if occ < cap then { occupancy := occ + 1, rows := rows, purgeRan := false }
  else
    { occupancy := 0,
      rows := (hardDeleteAllFlagged rows purgeFails).rows,
      purgeRan := true }

/-- Outcome of `Storage.DeleteTask`: resulting rows and queue occupancy, the
returned error, and the number of times `tryEnqueueOrFlush` was invoked. -/
structure DeleteOutcome where
  rows : Rows
  occupancy : Nat
  err : Option StoreErr
  enqueueCalls : Nat
deriving DecidableEq, Repr

/-- `Storage.DeleteTask`: runs the soft-delete UPDATE; if it affected no row
(`RowsAffected() == 0`) it returns `ErrNotFound`; on success it invokes
`tryEnqueueOrFlush` once and returns nil. -/
def deleteTask (cap : Nat) (rows : Rows) (occ : Nat) (id : String)
    (purgeFails : Bool) : DeleteOutcome :=
  if softDeleteAffected rows id == 0 then
    { rows := rows, occupancy := occ, err := some .notFound, enqueueCalls := 0 }
  else
    let tr := tryEnqueueOrFlush cap occ (softDeleteRows rows id) purgeFails
    { rows := tr.rows, occupancy := tr.occupancy, err := none,
      enqueueCalls := 1 }

/-- `Storage.EnqueueHardDelete`: ignores its identifier argument and calls
`tryEnqueueOrFlush`. -/
def enqueueHardDelete (cap occ : Nat) (rows : Rows) (purgeFails : Bool) :
    TriggerResult :=
  tryEnqueueOrFlush cap occ rows purgeFails

end Db

namespace Mem

/-- Go map assignment `s.tasks[t.ID] = t` on the association-list model:
replace the row when the key exists, otherwise append it. -/
def mapSet (rows : Rows) (t : Task) : Rows :=
  if (findRow rows t.id).isSome then
    rows.map (fun x => if x.id == t.id then t else x)
  else rows ++ [t]

/-- In-memory `CreateTaskNoCtx`: sets `task.ID` to a fresh UUID (`newId`)
and stores the struct as given; no error path. -/
def createTaskNoCtx (rows : Rows) (newId : String) (task : Task) :
    Rows × Task :=
  let t := { task with id := newId }
  (mapSet rows t, t)

/-- In-memory `GetTaskByIDNoCtx`: map lookup, `ErrNotFound` when absent. -/
def getTaskByIDNoCtx (rows : Rows) (id : String) : Except StoreErr Task :=
  match findRow rows id with
  | some t => .ok t
  | none => .error .notFound

/-- In-memory `GetTasksByUserIDNoCtx`: all stored tasks whose `UserID`
matches — there is no condition on the `Deleted` flag. -/
def getTasksByUserIDNoCtx (rows : Rows) (userID : String) : List Task :=
  rows.filter (fun t => t.userID == userID)

/-- In-memory `UpdateTaskNoCtx`: `ErrNotFound` when the key is absent,
otherwise sets `task.ID = id` and stores the whole struct over the entry. -/
def updateTaskNoCtx (rows : Rows) (id : String) (task : Task) :
    Except StoreErr Rows :=
  if (findRow rows id).isSome then .ok (mapSet rows { task with id := id })
  else .error .notFound

/-- In-memory `DeleteTaskNoCtx`: `ErrNotFound` when the key is absent,
otherwise `delete(s.tasks, id)` — the entry is physically removed. -/
def deleteTaskNoCtx (rows : Rows) (id : String) : Except StoreErr Rows :=
  if (findRow rows id).isSome then
    .ok (rows.filter (fun t => !(t.id == id)))
  else .error .notFound

end Mem

namespace Server

/-- HTTP statuses produced by the task handlers. -/
inductive HStatus
  | ok
  | created
  | badRequest
  | unauthorized
  | forbidden
  | notFound
  | conflict
  | internalError
deriving DecidableEq, Repr

/-- `models.CreateTaskRequest`: the create body carries only a title and a
description — there is no owner field a caller could set. -/
structure CreateTaskRequest where
  title : String
  description : String
deriving DecidableEq, Repr

/-- `models.UpdateTaskRequest`: partial update body; empty strings stand for
absent fields. -/
structure UpdateTaskRequest where
  title : String
  description : String
  status : String
deriving DecidableEq, Repr

/-- The `allowedTaskStatuses` map in `server.go`. -/
def allowedTaskStatuses (s : String) : Bool :=
  s == "new" || s == "in_progress" || s == "done"

/-- Response of the read-by-id handler: status and optional task body. -/
structure GetTaskResponse where
  status : HStatus
  body : Option Task
deriving DecidableEq, Repr

/-- Handler `getTaskByID` (instantiated with the db storage): resolve the
caller from the JWT (`auth`, `none` meaning missing/invalid), look the task
up via `GetTaskByID`, return 404 when absent, 403 when
`task.UserID != userID`, otherwise 200 with the task. -/
def getTaskByID (auth : Option String) (rows : Rows) (taskID : String) :
    GetTaskResponse :=
  match auth with
  | none => { status := .unauthorized, body := none }
  | some userID =>
    match Db.getTaskByID rows taskID with
    | .error _ => { status := .notFound, body := none }
    | .ok task =>
      if task.userID != userID then { status := .forbidden, body := none }
      else { status := .ok, body := some task }

/-- Response of the create handler: status, optional task body, resulting
rows. -/
structure CreateTaskResponse where
  status : HStatus
  body : Option Task
  rows : Rows
deriving DecidableEq, Repr

/-- Handler `createTask` (instantiated with the db storage): resolve the
caller, bind and validate the body (`bindOk` / `reqValid` model the JSON
binder and the validator, external collaborators), build the task with
`Status = "new"` and `UserID = userID`, and call `CreateTask`. -/
def createTask (auth : Option String) (rows : Rows) (newId : String)
    (bindOk reqValid : Bool) (req : CreateTaskRequest) : CreateTaskResponse :=
  match auth with
  | none => { status := .unauthorized, body := none, rows := rows }
  | some userID =>
    if !bindOk then { status := .badRequest, body := none, rows := rows }
    else if !reqValid then { status := .badRequest, body := none, rows := rows }
    else
      let task : Task :=
        { id := "", title := req.title, description := req.description,
          status := "new", userID := userID, deleted := false }
      match Db.createTask rows newId task with
      | .error _ => { status := .conflict, body := none, rows := rows }
      | .ok (rows2, t) => { status := .created, body := some t, rows := rows2 }

/-- The field merge in handler `updateTask`: each non-empty request field
overwrites the loaded task's field; empty fields keep the prior value. -/
def mergeUpdate (task : Task) (req : UpdateTaskRequest) : Task :=
  let t1 := if req.title != "" then { task with title := req.title } else task
  let t2 :=
    if req.description != "" then { t1 with description := req.description }
    else t1
  if req.status != "" then { t2 with status := req.status } else t2

/-- Response of the update handler: status, optional task body, resulting
rows. -/
structure UpdateTaskResponse where
  status : HStatus
  body : Option Task
  rows : Rows
deriving DecidableEq, Repr

/-- Handler `updateTask` (instantiated with the db storage): resolve the
caller, bind/validate, load the task, 404 when absent, 403 when
`task.UserID != userID`, 400 on a disallowed non-empty status, otherwise
merge the non-empty fields and call `UpdateTask` (a store error maps to
500 with the rows unchanged). -/
def updateTask (auth : Option String) (rows : Rows) (taskID : String)
    (bindOk reqValid : Bool) (req : UpdateTaskRequest) : UpdateTaskResponse :=
  match auth with
  | none => { status := .unauthorized, body := none, rows := rows }
  | some userID =>
    if !bindOk then { status := .badRequest, body := none, rows := rows }
    else if !reqValid then { status := .badRequest, body := none, rows := rows }
    else
      match Db.getTaskByID rows taskID with
      | .error _ => { status := .notFound, body := none, rows := rows }
      | .ok task =>
        if task.userID != userID then
          { status := .forbidden, body := none, rows := rows }
        else if req.status != "" && !(allowedTaskStatuses req.status) then
          { status := .badRequest, body := none, rows := rows }
        else
          let merged := mergeUpdate task req
          match Db.updateTask rows taskID merged with
          | .error _ => { status := .internalError, body := none, rows := rows }
          | .ok rows2 => { status := .ok, body := some merged, rows := rows2 }

/-- Response of the delete handler: status, resulting rows and queue
occupancy, and the number of `tryEnqueueOrFlush` invocations performed on
behalf of this request. -/
structure DeleteTaskResponse where
  status : HStatus
  rows : Rows
  occupancy : Nat
  enqueueCalls : Nat
deriving DecidableEq, Repr

/-- Handler `deleteTask` (instantiated with the db storage): resolve the
caller, load the task, 404 when absent, 403 when `task.UserID != userID`,
then call the store's `DeleteTask` (which on success runs
`tryEnqueueOrFlush` itself); on success the handler's type assertion on the
db storage succeeds and it additionally calls `EnqueueHardDelete`, then
returns 200. The two purge-failure oracles belong to the two possible
`tryEnqueueOrFlush` invocations. -/
def deleteTask (cap : Nat) (auth : Option String) (rows : Rows) (occ : Nat)
    (taskID : String) (purgeFails1 purgeFails2 : Bool) : DeleteTaskResponse :=
  match auth with
  | none =>
    { status := .unauthorized, rows := rows, occupancy := occ,
      enqueueCalls := 0 }
  | some userID =>
    match Db.getTaskByID rows taskID with
    | .error _ =>
      { status := .notFound, rows := rows, occupancy := occ,
        enqueueCalls := 0 }
    | .ok task =>
      if task.userID != userID then
        { status := .forbidden, rows := rows, occupancy := occ,
          enqueueCalls := 0 }
      else
        let d := Db.deleteTask cap rows occ taskID purgeFails1
        match d.err with
        | some _ =>
          { status := .notFound, rows := d.rows, occupancy := d.occupancy,
            enqueueCalls := d.enqueueCalls }
        | none =>
          let tr := Db.enqueueHardDelete cap d.occupancy d.rows purgeFails2
          { status := .ok, rows := tr.rows, occupancy := tr.occupancy,
            enqueueCalls := d.enqueueCalls + 1 }

end Server

/-- A storage operation taking `before` to `after` never resurrects a task:
whenever some row of `before` with a given identifier is tombstoned, every
row of `after` carrying that identifier is still tombstoned (the row may
also have been removed altogether). -/
def preservesTombstones (before after : Rows) : Prop :=
  ∀ id, (∃ t ∈ before, t.id = id ∧ t.deleted = true) →
    ∀ u ∈ after, u.id = id → u.deleted = true

/-! ## Helper lemmas -/

theorem findRow_eq_none_iff {rows : Rows} {id : String} :
    findRow rows id = none ↔ ∀ t ∈ rows, t.id ≠ id := by
  simp [findRow, List.find?_eq_none]

theorem findRow_eq_some_mem {rows : Rows} {id : String} {t : Task}
    (h : findRow rows id = some t) : t ∈ rows ∧ t.id = id := by
  refine ⟨List.mem_of_find?_eq_some h, ?_⟩
  have := List.find?_some h
  simpa using this

theorem findRow_isSome_of_mem {rows : Rows} {id : String} {t : Task}
    (ht : t ∈ rows) (hid : t.id = id) : (findRow rows id).isSome := by
  rw [findRow, List.find?_isSome]
  exact ⟨t, ht, by simp [hid]⟩

/-- Every row of the soft-delete UPDATE's result that carries the targeted
identifier is tombstoned. -/
theorem softDeleteRows_tombstoned {rows : Rows} {id : String} :
    ∀ u ∈ Db.softDeleteRows rows id, u.id = id → u.deleted = true := by
  intro u hu huid
  rw [Db.softDeleteRows, List.mem_map] at hu
  obtain ⟨x, _, rfl⟩ := hu
  by_cases hc : (x.id == id && x.deleted == false) = true
  · rw [if_pos hc]
  · rw [if_neg hc] at huid ⊢
    rcases hd : x.deleted with _ | _
    · exact absurd (by simp [huid, hd]) hc
    · rfl

/-- Membership is preserved into the soft-delete UPDATE's result for the
image of each row; the image keeps the row's identifier. -/
theorem softDeleteRows_mem_image {rows : Rows} {id : String} {t : Task}
    (ht : t ∈ rows) :
    ∃ u ∈ Db.softDeleteRows rows id, u.id = t.id := by
  refine ⟨if t.id == id && t.deleted == false then { t with deleted := true }
          else t, ?_, ?_⟩
  · rw [Db.softDeleteRows, List.mem_map]; exact ⟨t, ht, rfl⟩
  · by_cases hc : (t.id == id && t.deleted == false) = true
    · rw [if_pos hc]
    · rw [if_neg hc]

/-- The purge keeps every row it does not delete: its result is drawn from
its input rows. -/
theorem hardDeleteAllFlagged_rows_subset {rows : Rows} {pf : Bool} :
    ∀ u ∈ (Db.hardDeleteAllFlagged rows pf).rows, u ∈ rows := by
  intro u hu
  rw [Db.hardDeleteAllFlagged] at hu
  by_cases hpf : pf = true
  · rw [if_pos hpf] at hu; exact hu
  · rw [if_neg hpf] at hu; exact (List.mem_filter.mp hu).1

/-- `tryEnqueueOrFlush` only ever keeps or deletes rows: every row of its
result was a row of its input. -/
theorem tryEnqueueOrFlush_rows_subset {cap occ : Nat} {rows : Rows}
    {pf : Bool} :
    ∀ u ∈ (Db.tryEnqueueOrFlush cap occ rows pf).rows, u ∈ rows := by
  intro u hu
  rw [Db.tryEnqueueOrFlush] at hu
  by_cases h : occ < cap
  · rw [if_pos h] at hu; exact hu
  · rw [if_neg h] at hu
    exact hardDeleteAllFlagged_rows_subset u hu

/-- With pairwise-distinct identifiers, two rows sharing an identifier are
the same row. -/
theorem uniqueIds_inj {rows : Rows} (huniq : uniqueIds rows) {x t : Task}
    (hx : x ∈ rows) (ht : t ∈ rows) (h : x.id = t.id) : x = t :=
  List.inj_on_of_nodup_map huniq hx ht h

/-- The soft-delete UPDATE affects no row exactly when every row carrying
the identifier is already tombstoned (or no such row exists). -/
theorem softDeleteAffected_eq_zero_iff {rows : Rows} {id : String} :
    Db.softDeleteAffected rows id = 0 ↔
      ∀ t ∈ rows, t.id = id → t.deleted = true := by
  rw [Db.softDeleteAffected, List.length_eq_zero, List.filter_eq_nil_iff]
  constructor
  · intro h t ht hid
    have := h t ht
    rcases hd : t.deleted with _ | _
    · exact absurd (by simp [hid, hd]) this
    · rfl
  · intro h t ht hc
    have h1 : t.id = id := by
      have := (Bool.and_eq_true _ _).mp hc
      simpa using this.1
    have h2 : t.deleted = false := by
      have := (Bool.and_eq_true _ _).mp hc
      simpa using this.2
    simp [h t ht h1] at h2

/-- `DeleteTask` succeeds exactly when a live (not yet tombstoned) row with
the identifier exists. -/
theorem deleteTask_err_none_iff {cap occ : Nat} {rows : Rows} {id : String}
    {pf : Bool} :
    (Db.deleteTask cap rows occ id pf).err = none ↔
      ∃ t ∈ rows, t.id = id ∧ t.deleted = false := by
  rw [Db.deleteTask]
  by_cases h : Db.softDeleteAffected rows id = 0
  · rw [if_pos (by simpa using h)]
    constructor
    · intro hcon; exact Option.noConfusion hcon
    · rintro ⟨t, ht, hid, hlive⟩
      have := softDeleteAffected_eq_zero_iff.mp h t ht hid
      simp [this] at hlive
  · rw [if_neg (by simpa using h)]
    constructor
    · intro _
      have hne := (not_iff_not.mpr softDeleteAffected_eq_zero_iff).mp h
      push_neg at hne
      obtain ⟨t, ht, hid, hdead⟩ := hne
      exact ⟨t, ht, hid, by simpa using hdead⟩
    · intro _; rfl

/-- When every row carrying the identifier is already tombstoned,
`DeleteTask` fails with NotFound. -/
theorem deleteTask_err_of_all_tombstoned {cap occ : Nat} {rows : Rows}
    {id : String} {pf : Bool}
    (h : ∀ u ∈ rows, u.id = id → u.deleted = true) :
    (Db.deleteTask cap rows occ id pf).err = some .notFound := by
  rw [Db.deleteTask,
    if_pos (by simpa using softDeleteAffected_eq_zero_iff.mpr h)]

/-- A row-wise map that keeps identifiers and never turns the tombstoned
flag off preserves tombstones. -/
theorem preservesTombstones_map {rows : Rows} (huniq : uniqueIds rows)
    (f : Task → Task) (hid : ∀ x, (f x).id = x.id)
    (hdel : ∀ x, (f x).deleted = x.deleted ∨ (f x).deleted = true) :
    preservesTombstones rows (rows.map f) := by
  rintro id ⟨t, ht, htid, htdead⟩ u hu huid
  rw [List.mem_map] at hu
  obtain ⟨x, hx, rfl⟩ := hu
  rw [hid x] at huid
  have hxt : x = t := uniqueIds_inj huniq hx ht (huid.trans htid.symm)
  rcases hdel x with h | h
  · rw [h, hxt]; exact htdead
  · exact h

/-- With pairwise-distinct identifiers, leaving the rows unchanged
preserves tombstones. -/
theorem preservesTombstones_refl {rows : Rows} (huniq : uniqueIds rows) :
    preservesTombstones rows rows := by
  rintro id ⟨t, ht, htid, htdead⟩ u hu huid
  have : u = t := uniqueIds_inj huniq hu ht (huid.trans htid.symm)
  rw [this]; exact htdead

/-- Shrinking the result preserves tombstones. -/
theorem preservesTombstones_mono {rows mid after : Rows}
    (h : preservesTombstones rows mid) (hsub : ∀ u ∈ after, u ∈ mid) :
    preservesTombstones rows after :=
  fun id hex u hu huid => h id hex u (hsub u hu) huid

/-! ## C1 -/

/-- C1: for every task row found by `getByID` whose owner differs from the
authenticated caller, the read-by-id, update and delete handlers all return
Forbidden with no task body, leave the rows (and the delete queue) unchanged,
and perform no enqueue; the ownership comparison runs after the successful
lookup, so the non-owner receives Forbidden rather than NotFound. -/
theorem ownership_guard_rejects_non_owner
    (u : String) (rows : Rows) (cap occ : Nat) (id : String)
    (req : Server.UpdateTaskRequest) (pf1 pf2 : Bool) (t : Task)
    (hfind : findRow rows id = some t) (hown : t.userID ≠ u) :
    Server.getTaskByID (some u) rows id =
      { status := .forbidden, body := none }
    ∧ Server.updateTask (some u) rows id true true req =
      { status := .forbidden, body := none, rows := rows }
    ∧ Server.deleteTask cap (some u) rows occ id pf1 pf2 =
      { status := .forbidden, rows := rows, occupancy := occ,
        enqueueCalls := 0 } := by
  have hbne : (t.userID != u) = true := by simpa using hown
  refine ⟨?_, ?_, ?_⟩
  · simp [Server.getTaskByID, Db.getTaskByID, hfind, hbne]
  · simp [Server.updateTask, Db.getTaskByID, hfind, hbne]
  · simp [Server.deleteTask, Db.getTaskByID, hfind, hbne]

/-- C1 witness: a concrete non-owner probing an existing task. -/
theorem ownership_guard_rejects_non_owner_witness :
    Server.getTaskByID (some "bob")
      [⟨"t1", "title", "descr", "new", "alice", false⟩] "t1" =
      { status := .forbidden, body := none } :=
  (ownership_guard_rejects_non_owner "bob"
    [⟨"t1", "title", "descr", "new", "alice", false⟩] 10 0 "t1"
    ⟨"", "", ""⟩ false false ⟨"t1", "title", "descr", "new", "alice", false⟩
    (by decide) (by decide)).1

/-! ## C3 -/

/-- C3: when a live row with the given identifier exists (so the
soft-delete UPDATE succeeds, affecting at least one row), then in the
resulting rows — before any purge — the task is absent from every
owner-scoped active listing `GetTasks`, while a direct `GetTaskByID` still
returns a row with that identifier, tombstoned, rather than NotFound. -/
theorem soft_delete_hides_from_listing_not_from_lookup
    (rows : Rows) (id : String) (t : Task)
    (ht : t ∈ rows) (hid : t.id = id) (hlive : t.deleted = false) :
    Db.softDeleteAffected rows id ≠ 0
    ∧ (∀ owner, ∀ u ∈ Db.getTasks (Db.softDeleteRows rows id) owner,
        u.id ≠ id)
    ∧ ∃ t', Db.getTaskByID (Db.softDeleteRows rows id) id = .ok t'
        ∧ t'.id = id ∧ t'.deleted = true := by
  refine ⟨?_, ?_, ?_⟩
  · intro h0
    rw [Db.softDeleteAffected, List.length_eq_zero] at h0
    have : t ∈ rows.filter (fun x => x.id == id && x.deleted == false) :=
      List.mem_filter.mpr ⟨ht, by simp [hid, hlive]⟩
    rw [h0] at this
    exact absurd this (List.not_mem_nil t)
  · intro owner u hu huid
    rw [Db.getTasks] at hu
    have humem : u ∈ Db.softDeleteRows rows id :=
      (List.mem_filter.mp hu).1
    have hdead : u.deleted = true :=
      softDeleteRows_tombstoned u humem huid
    have : (u.userID == owner && u.deleted == false) = true :=
      (List.mem_filter.mp hu).2
    simp [hdead] at this
  · obtain ⟨v, hv, hvid⟩ := @softDeleteRows_mem_image rows id t ht
    have hsome : (findRow (Db.softDeleteRows rows id) id).isSome :=
      findRow_isSome_of_mem hv (hvid.trans hid)
    obtain ⟨t', ht'⟩ := Option.isSome_iff_exists.mp hsome
    obtain ⟨ht'mem, ht'id⟩ := findRow_eq_some_mem ht'
    exact ⟨t', by simp [Db.getTaskByID, ht'], ht'id,
      softDeleteRows_tombstoned t' ht'mem ht'id⟩

/-- C3 witness: a concrete live task; after the soft-delete it is gone from
its owner's listing but still found, tombstoned, by direct lookup. -/
theorem soft_delete_hides_from_listing_not_from_lookup_witness :
    Db.softDeleteAffected [⟨"t1", "a", "b", "new", "alice", false⟩] "t1" ≠ 0 :=
  (soft_delete_hides_from_listing_not_from_lookup
    [⟨"t1", "a", "b", "new", "alice", false⟩] "t1"
    ⟨"t1", "a", "b", "new", "alice", false⟩
    (by decide) (by decide) (by decide)).1

/-! ## C4 -/

/-- C4: `tryEnqueueOrFlush` first attempts a non-blocking enqueue: when the
queue has free space the occupancy grows by one, the rows are untouched and
no purge runs; exactly when the queue is full (and only then) it instead
drains the queue to occupancy zero and synchronously runs the bulk purge of
all tombstoned rows. The function is total — it never waits for space. -/
theorem reclamation_trigger_enqueue_or_flush
    (cap occ : Nat) (rows : Rows) (pf : Bool) :
    ((Db.tryEnqueueOrFlush cap occ rows pf).purgeRan = false ↔ occ < cap)
    ∧ (occ < cap →
        Db.tryEnqueueOrFlush cap occ rows pf =
          { occupancy := occ + 1, rows := rows, purgeRan := false })
    ∧ (¬ occ < cap →
        Db.tryEnqueueOrFlush cap occ rows pf =
          { occupancy := 0,
            rows := (Db.hardDeleteAllFlagged rows pf).rows,
            purgeRan := true }) := by
  refine ⟨?_, ?_, ?_⟩ <;> rw [Db.tryEnqueueOrFlush]
  · by_cases h : occ < cap <;> simp [h]
  · intro h; simp [h]
  · intro h; simp [h]

/-- C4 witness: a saturated queue of capacity 10 is drained to zero and the
purge runs; an unsaturated one just gains a signal. -/
theorem reclamation_trigger_enqueue_or_flush_witness :
    Db.tryEnqueueOrFlush 10 10 [] false =
      { occupancy := 0, rows := (Db.hardDeleteAllFlagged [] false).rows,
        purgeRan := true }
    ∧ Db.tryEnqueueOrFlush 10 0 [] false =
      { occupancy := 1, rows := [], purgeRan := false } :=
  ⟨(reclamation_trigger_enqueue_or_flush 10 10 [] false).2.2 (by decide),
   (reclamation_trigger_enqueue_or_flush 10 0 [] false).2.1 (by decide)⟩

/-! ## C2 -/

/-- C2: `DeleteTask` (soft delete) succeeds exactly when a live row with the
identifier exists, and the soft-delete UPDATE leaves every row carrying that
identifier tombstoned; a second `DeleteTask` on the resulting store fails
with NotFound, so two successive soft deletes never both succeed; and no
store operation — soft delete, update, purge, create or `DeleteTask`
itself — ever resets a tombstoned flag from true back to false. -/
theorem soft_delete_one_way
    (cap occ occ2 : Nat) (rows : Rows) (id : String) (pf pf2 : Bool)
    (huniq : uniqueIds rows) :
    ((Db.deleteTask cap rows occ id pf).err = none ↔
      ∃ t ∈ rows, t.id = id ∧ t.deleted = false)
    ∧ (∀ u ∈ Db.softDeleteRows rows id, u.id = id → u.deleted = true)
    ∧ ((Db.deleteTask cap rows occ id pf).err = none →
        (Db.deleteTask cap (Db.deleteTask cap rows occ id pf).rows occ2 id
          pf2).err = some .notFound)
    ∧ (∀ id2, preservesTombstones rows (Db.softDeleteRows rows id2))
    ∧ (∀ id2 task rows2, Db.updateTask rows id2 task = .ok rows2 →
        preservesTombstones rows rows2)
    ∧ (∀ tf, preservesTombstones rows (Db.hardDeleteAllFlagged rows tf).rows)
    ∧ (∀ newId task rows2 t2,
        Db.createTask rows newId task = .ok (rows2, t2) →
        preservesTombstones rows rows2)
    ∧ (∀ id2 pf3 occ3,
        preservesTombstones rows (Db.deleteTask cap rows occ3 id2 pf3).rows)
    := by
  have hsoft : ∀ id2, preservesTombstones rows (Db.softDeleteRows rows id2) := by
    intro id2
    rw [Db.softDeleteRows]
    refine preservesTombstones_map huniq _ ?_ ?_
    · intro x
      by_cases hc : (x.id == id2 && x.deleted == false) = true
      · rw [if_pos hc]
      · rw [if_neg hc]
    · intro x
      by_cases hc : (x.id == id2 && x.deleted == false) = true
      · right; rw [if_pos hc]
      · left; rw [if_neg hc]
  refine ⟨deleteTask_err_none_iff, softDeleteRows_tombstoned, ?_, hsoft,
    ?_, ?_, ?_, ?_⟩
  · intro hok
    have hne : ¬ Db.softDeleteAffected rows id = 0 := by
      intro h0
      obtain ⟨t, ht, hid, hlive⟩ := deleteTask_err_none_iff.mp hok
      have := softDeleteAffected_eq_zero_iff.mp h0 t ht hid
      simp [this] at hlive
    have hrows : (Db.deleteTask cap rows occ id pf).rows =
        (Db.tryEnqueueOrFlush cap occ (Db.softDeleteRows rows id) pf).rows := by
      rw [Db.deleteTask, if_neg (by simpa using hne)]
    refine deleteTask_err_of_all_tombstoned ?_
    intro u hu huid
    rw [hrows] at hu
    exact softDeleteRows_tombstoned u (tryEnqueueOrFlush_rows_subset u hu) huid
  · intro id2 task rows2 hok
    rw [Db.updateTask] at hok
    by_cases hs : (findRow rows id2).isSome
    · rw [if_pos hs] at hok
      cases hok
      refine preservesTombstones_map huniq _ ?_ ?_
      · intro x
        by_cases hc : (x.id == id2) = true
        · rw [if_pos hc]
        · rw [if_neg hc]
      · intro x
        left
        by_cases hc : (x.id == id2) = true
        · rw [if_pos hc]
        · rw [if_neg hc]
    · rw [if_neg hs] at hok
      exact Except.noConfusion hok
  · intro tf
    exact preservesTombstones_mono (preservesTombstones_refl huniq)
      hardDeleteAllFlagged_rows_subset
  · intro newId task rows2 t2 hok
    cases hfind : findRow rows newId with
    | some w =>
      rw [Db.createTask] at hok
      simp only [hfind] at hok
      exact Except.noConfusion hok
    | none =>
      rw [Db.createTask] at hok
      simp only [hfind, Except.ok.injEq, Prod.mk.injEq] at hok
      obtain ⟨hrows2, _⟩ := hok
      rintro id3 ⟨t, ht, htid, htdead⟩ u hu huid
      rw [← hrows2, List.mem_append] at hu
      rcases hu with hu | hu
      · exact preservesTombstones_refl huniq id3 ⟨t, ht, htid, htdead⟩ u hu huid
      · rw [List.mem_singleton] at hu
        exfalso
        have hne := findRow_eq_none_iff.mp hfind t ht
        have huid2 : newId = id3 := by rw [hu] at huid; exact huid
        exact hne (htid.trans huid2.symm)
  · intro id2 pf3 occ3
    by_cases h0 : Db.softDeleteAffected rows id2 = 0
    · have : (Db.deleteTask cap rows occ3 id2 pf3).rows = rows := by
        rw [Db.deleteTask, if_pos (by simpa using h0)]
      rw [this]
      exact preservesTombstones_refl huniq
    · have : (Db.deleteTask cap rows occ3 id2 pf3).rows =
          (Db.tryEnqueueOrFlush cap occ3 (Db.softDeleteRows rows id2)
            pf3).rows := by
        rw [Db.deleteTask, if_neg (by simpa using h0)]
      rw [this]
      exact preservesTombstones_mono (hsoft id2) tryEnqueueOrFlush_rows_subset

/-- C2 witness: a concrete live task is soft-deleted successfully. -/
theorem soft_delete_one_way_witness :
    (Db.deleteTask 10 [⟨"t1", "a", "b", "new", "u1", false⟩] 0 "t1"
      false).err = none :=
  (soft_delete_one_way 10 0 0 [⟨"t1", "a", "b", "new", "u1", false⟩] "t1"
    false false (by decide)).1.mpr
    ⟨⟨"t1", "a", "b", "new", "u1", false⟩, by decide, by decide, by decide⟩

/-! ## C5 -/

/-- C5 counterexample: one successful soft-delete through the delete handler
on the db-backed store invokes the enqueue-or-flush algorithm twice (once by
the store's internal hook in `DeleteTask`, once by the handler's
`EnqueueHardDelete` call), not exactly once as claimed. -/
theorem enqueue_once_per_delete_counterexample :
    (Server.deleteTask 10 (some "u1") [⟨"t1", "a", "b", "new", "u1", false⟩]
      0 "t1" false false).status = .ok
    ∧ (Server.deleteTask 10 (some "u1") [⟨"t1", "a", "b", "new", "u1", false⟩]
      0 "t1" false false).enqueueCalls ≠ 1 := by
  constructor
  · rfl
  · decide

/-- C5 amended: per successful soft-delete through the delete handler the
enqueue-or-flush algorithm is invoked exactly twice — once by the store's
internal notification hook and once by the handler's post-delete
`EnqueueHardDelete` call; a soft-delete at the store layer alone invokes it
exactly once; and a failed soft-delete invokes it not at all. -/
theorem enqueue_twice_per_handler_delete
    (cap occ : Nat) (auth : Option String) (rows : Rows) (id : String)
    (pf1 pf2 : Bool) :
    ((Server.deleteTask cap auth rows occ id pf1 pf2).status = .ok →
      (Server.deleteTask cap auth rows occ id pf1 pf2).enqueueCalls = 2)
    ∧ ((Server.deleteTask cap auth rows occ id pf1 pf2).status ≠ .ok →
      (Server.deleteTask cap auth rows occ id pf1 pf2).enqueueCalls = 0)
    ∧ ((Db.deleteTask cap rows occ id pf1).err = none →
      (Db.deleteTask cap rows occ id pf1).enqueueCalls = 1)
    ∧ ((Db.deleteTask cap rows occ id pf1).err ≠ none →
      (Db.deleteTask cap rows occ id pf1).enqueueCalls = 0) := by
  have hdb1 : (Db.deleteTask cap rows occ id pf1).err = none →
      (Db.deleteTask cap rows occ id pf1).enqueueCalls = 1 := by
    rw [Db.deleteTask]
    by_cases h : (Db.softDeleteAffected rows id == 0) = true
    · rw [if_pos h]; intro hc; exact Option.noConfusion hc
    · rw [if_neg h]; intro _; rfl
  have hdb0 : (Db.deleteTask cap rows occ id pf1).err ≠ none →
      (Db.deleteTask cap rows occ id pf1).enqueueCalls = 0 := by
    rw [Db.deleteTask]
    by_cases h : (Db.softDeleteAffected rows id == 0) = true
    · rw [if_pos h]; intro _; rfl
    · rw [if_neg h]; intro hc; exact absurd rfl hc
  refine ⟨?_, ?_, hdb1, hdb0⟩
  · cases auth with
    | none => intro hc; exact absurd hc (by simp [Server.deleteTask])
    | some u =>
      cases hg : Db.getTaskByID rows id with
      | error e =>
        intro hc
        simp only [Server.deleteTask, hg] at hc
        exact Server.HStatus.noConfusion hc
      | ok task =>
        by_cases howner : (task.userID != u) = true
        · intro hc
          simp only [Server.deleteTask, hg, if_pos howner] at hc
          exact Server.HStatus.noConfusion hc
        · cases herr : (Db.deleteTask cap rows occ id pf1).err with
          | some e =>
            intro hc
            simp only [Server.deleteTask, hg, if_neg howner, herr] at hc
            exact Server.HStatus.noConfusion hc
          | none =>
            intro _
            show (Server.deleteTask cap (some u) rows occ id pf1
              pf2).enqueueCalls = 2
            simp only [Server.deleteTask, hg, if_neg howner, herr]
            rw [hdb1 herr]
  · cases auth with
    | none => intro _; rfl
    | some u =>
      cases hg : Db.getTaskByID rows id with
      | error e =>
        intro _
        simp only [Server.deleteTask, hg]
      | ok task =>
        by_cases howner : (task.userID != u) = true
        · intro _
          simp only [Server.deleteTask, hg, if_pos howner]
        · cases herr : (Db.deleteTask cap rows occ id pf1).err with
          | some e =>
            intro _
            simp only [Server.deleteTask, hg, if_neg howner, herr]
            exact hdb0 (by simp [herr])
          | none =>
            intro hc
            exact absurd
              (by simp only [Server.deleteTask, hg, if_neg howner, herr]) hc

/-- C5 amended witness: a concrete successful handler delete performs two
invocations; the store-level delete alone performs one. -/
theorem enqueue_twice_per_handler_delete_witness :
    (Server.deleteTask 10 (some "u1") [⟨"t1", "a", "b", "new", "u1", false⟩]
      0 "t1" false false).enqueueCalls = 2 :=
  (enqueue_twice_per_handler_delete 10 0 (some "u1")
    [⟨"t1", "a", "b", "new", "u1", false⟩] "t1" false false).1 rfl

/-! ## C6 -/

/-- The rows of a list are split between those the purge keeps and those it
removes. -/
theorem purge_length_partition (rows : Rows) :
    rows.length = (rows.filter (fun t => t.deleted == false)).length +
      (rows.filter (fun t => t.deleted == true)).length := by
  induction rows with
  | nil => rfl
  | cons a l ih =>
    rcases h : a.deleted with _ | _ <;>
      simp [List.filter_cons, h, ih] <;> omega

/-- C6: when `hardDeleteAllFlagged`'s transaction goes through, it removes
exactly the rows whose tombstoned flag is true, keeps every other row, and
returns the count of rows removed; when the transaction fails it is rolled
back entirely and the store is left unchanged, with no count returned —
all-or-nothing, never a half-purged state. -/
theorem purge_atomicity (rows : Rows) (tf : Bool) :
    (tf = true → Db.hardDeleteAllFlagged rows tf =
      { rows := rows, affected := none })
    ∧ (tf = false →
        (Db.hardDeleteAllFlagged rows tf).affected =
          some (rows.filter (fun t => t.deleted == true)).length
        ∧ (∀ u ∈ (Db.hardDeleteAllFlagged rows tf).rows, u.deleted = false)
        ∧ (∀ u ∈ rows, u.deleted = false →
            u ∈ (Db.hardDeleteAllFlagged rows tf).rows)
        ∧ (∀ u ∈ rows, u.deleted = true →
            u ∉ (Db.hardDeleteAllFlagged rows tf).rows)
        ∧ rows.length = (Db.hardDeleteAllFlagged rows tf).rows.length +
            (rows.filter (fun t => t.deleted == true)).length) := by
  refine ⟨?_, ?_⟩
  · intro h; rw [Db.hardDeleteAllFlagged, if_pos h]
  · intro h
    have hres : Db.hardDeleteAllFlagged rows tf =
        { rows := rows.filter (fun t => t.deleted == false),
          affected := some (rows.filter (fun t => t.deleted == true)).length }
        := by
      rw [Db.hardDeleteAllFlagged, if_neg (by simp [h])]
    refine ⟨by rw [hres], ?_, ?_, ?_, ?_⟩
    · intro u hu
      rw [hres] at hu
      have := (List.mem_filter.mp hu).2
      simpa using this
    · intro u hu hlive
      rw [hres]
      exact List.mem_filter.mpr ⟨hu, by simp [hlive]⟩
    · intro u _ hdead hmem
      rw [hres] at hmem
      have := (List.mem_filter.mp hmem).2
      simp [hdead] at this
    · rw [hres]
      exact purge_length_partition rows

/-- C6 witness: a concrete purge over one live and one tombstoned row. -/
theorem purge_atomicity_witness :
    (Db.hardDeleteAllFlagged
      [⟨"t1", "a", "b", "new", "u1", false⟩,
       ⟨"t2", "c", "d", "done", "u1", true⟩] false).affected = some 1 :=
  ((purge_atomicity
    [⟨"t1", "a", "b", "new", "u1", false⟩,
     ⟨"t2", "c", "d", "done", "u1", true⟩] false).2 rfl).1

/-! ## C7 -/

/-- C7: a failure of the reclamation purge is never propagated to the
soft-delete that triggered it: whatever the purge-failure oracles and the
queue occupancy, a soft-delete of a live task still returns nil from the
store's `DeleteTask`, and the owner's delete request through the handler
still returns 200. -/
theorem purge_failure_not_propagated
    (cap occ : Nat) (rows : Rows) (id : String) (t : Task) (pf1 pf2 : Bool)
    (hfind : findRow rows id = some t) (hlive : t.deleted = false) :
    (Db.deleteTask cap rows occ id pf1).err = none
    ∧ (Server.deleteTask cap (some t.userID) rows occ id pf1 pf2).status
        = .ok := by
  obtain ⟨hmem, hid⟩ := findRow_eq_some_mem hfind
  have herr : (Db.deleteTask cap rows occ id pf1).err = none :=
    deleteTask_err_none_iff.mpr ⟨t, hmem, hid, hlive⟩
  have hg : Db.getTaskByID rows id = .ok t := by rw [Db.getTaskByID, hfind]
  refine ⟨herr, ?_⟩
  simp only [Server.deleteTask, hg, herr]
  rw [if_neg (by simp : ¬((t.userID != t.userID) = true))]

/-- C7 witness: a failing purge under a saturated queue does not fail the
delete — the handler still answers 200. -/
theorem purge_failure_not_propagated_witness :
    (Server.deleteTask 10 (some "u1") [⟨"t1", "a", "b", "new", "u1", false⟩]
      10 "t1" true true).status = .ok :=
  (purge_failure_not_propagated 10 10
    [⟨"t1", "a", "b", "new", "u1", false⟩] "t1"
    ⟨"t1", "a", "b", "new", "u1", false⟩ true true (by decide) (by decide)).2

/-! ## C8 -/

/-- C8: the create handler builds the task with the caller as owner
unconditionally (the request body has no owner field to override it) and
status `new`; the store assigns the fresh identifier, forces the tombstoned
flag to false, and appends exactly that row, keeping identifiers unique
whenever the fresh identifier is really fresh. -/
theorem create_sets_owner_and_fresh_id
    (u : String) (rows : Rows) (newId : String)
    (req : Server.CreateTaskRequest) (task : Task)
    (hfresh : findRow rows newId = none) :
    (∃ t, Db.createTask rows newId task = .ok (rows ++ [t], t)
        ∧ t.id = newId ∧ t.deleted = false)
    ∧ (Server.createTask (some u) rows newId true true req).status = .created
    ∧ (∃ t, (Server.createTask (some u) rows newId true true req).body
          = some t
        ∧ t.userID = u ∧ t.id = newId ∧ t.deleted = false
        ∧ t.title = req.title ∧ t.description = req.description
        ∧ t.status = "new"
        ∧ (Server.createTask (some u) rows newId true true req).rows
            = rows ++ [t])
    ∧ (uniqueIds rows →
        uniqueIds (Server.createTask (some u) rows newId true true req).rows)
    := by
  have hsrv : Server.createTask (some u) rows newId true true req =
      { status := .created,
        body := some ⟨newId, req.title, req.description, "new", u, false⟩,
        rows := rows ++ [⟨newId, req.title, req.description, "new", u,
          false⟩] } := by
    simp only [Server.createTask, Db.createTask, hfresh, Bool.not_true,
      Bool.false_eq_true, if_false]
  refine ⟨?_, by rw [hsrv], ?_, ?_⟩
  · exact ⟨{ task with id := newId, deleted := false },
      by simp only [Db.createTask, hfresh], rfl, rfl⟩
  · exact ⟨⟨newId, req.title, req.description, "new", u, false⟩,
      by rw [hsrv], rfl, rfl, rfl, rfl, rfl, rfl, by rw [hsrv]⟩
  · intro hu
    rw [hsrv]
    have hnotin : newId ∉ rows.map Task.id := by
      intro hmem
      rw [List.mem_map] at hmem
      obtain ⟨x, hx, hxid⟩ := hmem
      exact findRow_eq_none_iff.mp hfresh x hx hxid
    show ((rows ++ [(⟨newId, req.title, req.description, "new", u, false⟩ :
      Task)]).map Task.id).Nodup
    rw [List.map_append]
    have hud : (List.map Task.id rows).Nodup := hu
    simp [List.nodup_append, hud, hnotin]

/-- C8 witness: a concrete create by a concrete caller. -/
theorem create_sets_owner_and_fresh_id_witness :
    (Server.createTask (some "alice") [] "id-1" true true
      ⟨"shopping", "milk"⟩).status = .created :=
  (create_sets_owner_and_fresh_id "alice" [] "id-1" ⟨"shopping", "milk"⟩
    ⟨"", "x", "y", "new", "z", false⟩ (by decide)).2.1

/-! ## C9 -/

/-- C9: the store's `UpdateTask` fails with NotFound exactly when no row
with the identifier exists; on success it rewrites only the title,
description and status of the rows carrying the identifier and leaves every
other row — and every row's identifier, owner and tombstoned flag —
unchanged. The handler merges only the non-empty request fields over the
loaded row (empty fields keep their prior values, owner and tombstoned flag
are never touched by the merge), and on the happy path writes exactly the
merged row's three columns through `UpdateTask`. -/
theorem update_overwrites_only_tracked_fields
    (rows : Rows) (id : String) (task : Task) (u : String)
    (req : Server.UpdateTaskRequest) (t : Task) :
    (Db.updateTask rows id task = .error .notFound ↔ ∀ x ∈ rows, x.id ≠ id)
    ∧ (∀ rows2, Db.updateTask rows id task = .ok rows2 →
        rows2.length = rows.length
        ∧ ∀ i (h : i < rows.length) (h2 : i < rows2.length),
            (rows2.get ⟨i, h2⟩).userID = (rows.get ⟨i, h⟩).userID
            ∧ (rows2.get ⟨i, h2⟩).deleted = (rows.get ⟨i, h⟩).deleted
            ∧ (rows2.get ⟨i, h2⟩).id = (rows.get ⟨i, h⟩).id
            ∧ ((rows.get ⟨i, h⟩).id = id →
                (rows2.get ⟨i, h2⟩).title = task.title
                ∧ (rows2.get ⟨i, h2⟩).description = task.description
                ∧ (rows2.get ⟨i, h2⟩).status = task.status)
            ∧ ((rows.get ⟨i, h⟩).id ≠ id →
                rows2.get ⟨i, h2⟩ = rows.get ⟨i, h⟩))
    ∧ ((Server.mergeUpdate t req).userID = t.userID
        ∧ (Server.mergeUpdate t req).deleted = t.deleted
        ∧ (Server.mergeUpdate t req).id = t.id
        ∧ (req.title = "" → (Server.mergeUpdate t req).title = t.title)
        ∧ (req.title ≠ "" → (Server.mergeUpdate t req).title = req.title)
        ∧ (req.description = "" →
            (Server.mergeUpdate t req).description = t.description)
        ∧ (req.description ≠ "" →
            (Server.mergeUpdate t req).description = req.description)
        ∧ (req.status = "" → (Server.mergeUpdate t req).status = t.status)
        ∧ (req.status ≠ "" → (Server.mergeUpdate t req).status = req.status))
    ∧ (findRow rows id = some t → t.userID = u →
        (req.status == "" || Server.allowedTaskStatuses req.status) = true →
        Server.updateTask (some u) rows id true true req =
          { status := .ok, body := some (Server.mergeUpdate t req),
            rows := rows.map (fun x =>
              if x.id == id then
                { x with
                    title := (Server.mergeUpdate t req).title,
                    description := (Server.mergeUpdate t req).description,
                    status := (Server.mergeUpdate t req).status }
              else x) }) := by
  refine ⟨?_, ?_, ?_, ?_⟩
  · by_cases hs : (findRow rows id).isSome
    · rw [Db.updateTask, if_pos hs]
      constructor
      · intro hc; exact Except.noConfusion hc
      · intro hall
        obtain ⟨w, hw⟩ := Option.isSome_iff_exists.mp hs
        obtain ⟨hwmem, hwid⟩ := findRow_eq_some_mem hw
        exact absurd hwid (hall w hwmem)
    · rw [Db.updateTask, if_neg hs]
      constructor
      · intro _
        exact findRow_eq_none_iff.mp (Option.not_isSome_iff_eq_none.mp hs)
      · intro _; rfl
  · intro rows2 hok
    by_cases hs : (findRow rows id).isSome
    · rw [Db.updateTask, if_pos hs] at hok
      cases hok
      refine ⟨by rw [List.length_map], ?_⟩
      intro i h h2
      rw [List.get_map]
      by_cases hc : ((rows.get ⟨i, h⟩).id == id) = true
      · rw [if_pos hc]
        exact ⟨rfl, rfl, rfl, fun _ => ⟨rfl, rfl, rfl⟩,
          fun hne => absurd (by simpa using hc) hne⟩
      · rw [if_neg hc]
        refine ⟨rfl, rfl, rfl, ?_, fun _ => rfl⟩
        intro heq
        exact absurd (by simpa using heq) hc
    · rw [Db.updateTask, if_neg hs] at hok
      exact Except.noConfusion hok
  · by_cases h1 : req.title = "" <;> by_cases h2 : req.description = "" <;>
      by_cases h3 : req.status = "" <;>
        simp [Server.mergeUpdate, h1, h2, h3]
  · intro hfind hown hstat
    have hg : Db.getTaskByID rows id = .ok t := by
      rw [Db.getTaskByID, hfind]
    have hsome : (findRow rows id).isSome := by rw [hfind]; rfl
    have hc : ¬((req.status != ""
        && !(Server.allowedTaskStatuses req.status)) = true) := by
      rcases ha : (req.status == "") with _ | _ <;>
        rcases hb : Server.allowedTaskStatuses req.status with _ | _ <;>
          simp [bne, ha, hb] <;> simp [ha, hb] at hstat
    simp only [Server.updateTask, hg, Bool.not_true, Bool.false_eq_true,
      if_false]
    rw [if_neg (by simp [hown] : ¬((t.userID != u) = true)), if_neg hc,
      Db.updateTask, if_pos hsome]

/-- C9 witness: a concrete partial update (empty description keeps the old
one; owner and tombstoned flag survive). -/
theorem update_overwrites_only_tracked_fields_witness :
    Server.updateTask (some "u1") [⟨"t1", "a", "b", "new", "u1", false⟩]
      "t1" true true ⟨"new title", "", "done"⟩ =
      { status := .ok,
        body := some ⟨"t1", "new title", "b", "done", "u1", false⟩,
        rows := [⟨"t1", "new title", "b", "done", "u1", false⟩] } := by
  have h := (update_overwrites_only_tracked_fields
    [⟨"t1", "a", "b", "new", "u1", false⟩] "t1"
    ⟨"", "", "", "", "", false⟩ "u1" ⟨"new title", "", "done"⟩
    ⟨"t1", "a", "b", "new", "u1", false⟩).2.2.2
    (by decide) (by decide) (by decide)
  rw [h]
  rfl

/-! ## C10 -/

/-- Go map assignment either replaces an identically-keyed row or appends
the new row; every row of the result is an old row or the assigned one. -/
theorem mem_mapSet {rows : Rows} {t0 x : Task}
    (hx : x ∈ Mem.mapSet rows t0) : x ∈ rows ∨ x = t0 := by
  rw [Mem.mapSet] at hx
  by_cases hs : (findRow rows t0.id).isSome
  · rw [if_pos hs] at hx
    rw [List.mem_map] at hx
    obtain ⟨y, hy, rfl⟩ := hx
    by_cases hc : (y.id == t0.id) = true
    · rw [if_pos hc]; right; rfl
    · rw [if_neg hc]; left; exact hy
  · rw [if_neg hs] at hx
    rw [List.mem_append] at hx
    rcases hx with h | h
    · left; exact h
    · right; exact List.mem_singleton.mp h

/-- C10: in the in-memory backend a successful `DeleteTask` physically
removes the entry — directly afterwards `GetTaskByID` on that identifier is
NotFound and every remaining row is an unchanged prior row (so no tombstoned
intermediate state exists); a delete of an absent identifier is NotFound; no
in-memory operation writes a `Deleted` value of its own (create and update
store exactly the caller's struct, delete only removes); and the in-memory
listing filters on the owner only, never on the `Deleted` flag. -/
theorem inmemory_delete_is_physical
    (rows : Rows) (id : String) (u : String) (task : Task) (newId : String) :
    ((findRow rows id).isSome →
        Mem.deleteTaskNoCtx rows id =
          .ok (rows.filter (fun x => !(x.id == id)))
        ∧ Mem.getTaskByIDNoCtx (rows.filter (fun x => !(x.id == id))) id =
          .error .notFound
        ∧ ∀ x ∈ rows.filter (fun x => !(x.id == id)), x ∈ rows)
    ∧ (findRow rows id = none →
        Mem.deleteTaskNoCtx rows id = .error .notFound)
    ∧ (∀ x ∈ (Mem.createTaskNoCtx rows newId task).1,
        x ∈ rows ∨ x.deleted = task.deleted)
    ∧ (∀ rows2, Mem.updateTaskNoCtx rows id task = .ok rows2 →
        ∀ x ∈ rows2, x ∈ rows ∨ x.deleted = task.deleted)
    ∧ (∀ x ∈ rows, (x ∈ Mem.getTasksByUserIDNoCtx rows u ↔ x.userID = u))
    := by
  refine ⟨?_, ?_, ?_, ?_, ?_⟩
  · intro hs
    refine ⟨by rw [Mem.deleteTaskNoCtx, if_pos hs], ?_, ?_⟩
    · have hnone : findRow (rows.filter (fun x => !(x.id == id))) id
          = none := by
        rw [findRow, List.find?_eq_none]
        intro x hx
        have := (List.mem_filter.mp hx).2
        simpa using this
      rw [Mem.getTaskByIDNoCtx, hnone]
    · intro x hx
      exact (List.mem_filter.mp hx).1
  · intro hn
    rw [Mem.deleteTaskNoCtx, if_neg (by simp [hn])]
  · intro x hx
    rcases mem_mapSet hx with h | h
    · left; exact h
    · right; rw [h]
  · intro rows2 hok x hx
    rw [Mem.updateTaskNoCtx] at hok
    by_cases hs : (findRow rows id).isSome
    · rw [if_pos hs] at hok
      cases hok
      rcases mem_mapSet hx with h | h
      · left; exact h
      · right; rw [h]
    · rw [if_neg hs] at hok
      exact Except.noConfusion hok
  · intro x hx
    rw [Mem.getTasksByUserIDNoCtx]
    constructor
    · intro hmem
      have := (List.mem_filter.mp hmem).2
      simpa using this
    · intro hu
      exact List.mem_filter.mpr ⟨hx, by simp [hu]⟩

/-- C10 witness: deleting the only stored task leaves an empty map and a
NotFound lookup. -/
theorem inmemory_delete_is_physical_witness :
    Mem.deleteTaskNoCtx [⟨"t1", "a", "b", "new", "u1", false⟩] "t1" = .ok []
    ∧ Mem.getTaskByIDNoCtx
        ([⟨"t1", "a", "b", "new", "u1", false⟩].filter
          (fun x => !(x.id == "t1"))) "t1" = .error .notFound :=
  ⟨by
    have h := ((inmemory_delete_is_physical
      [⟨"t1", "a", "b", "new", "u1", false⟩] "t1" "u1"
      ⟨"", "", "", "", "", false⟩ "n1").1 (by decide)).1
    rw [h]; rfl,
   ((inmemory_delete_is_physical
      [⟨"t1", "a", "b", "new", "u1", false⟩] "t1" "u1"
      ⟨"", "", "", "", "", false⟩ "n1").1 (by decide)).2.1⟩

end TaskService
